import Mathlib

/-!
Verification development for the wingtradebot signal-intake and trade-execution
pipeline.  Each definition is a shallow embedding of the corresponding
TypeScript function; the file reference and line numbers of the embedded code
are given in the doc comment of every definition.  Prices and pip distances
are modelled as exact rationals (the JavaScript computations round through
`toFixed`, which the model mirrors with exact decimal rounding); timestamps in
milliseconds are modelled as integers.
-/

namespace WingTradeBot

/-- Rounding to `d` decimal places: the model of JavaScript
`Number(x.toFixed(d))` (and of `Math.round(x * 10) / 10` when `d = 1`) on the
nonnegative prices used by the bot: round to nearest, ties upward. -/
def roundToDecimals (d : ℕ) (x : ℚ) : ℚ := (round (x * 10 ^ d) : ℚ) / 10 ^ d

/-- JavaScript truthiness on a nullable number: `null` and `0` are falsy.
Used wherever the source writes `if (stopLossPips)` / `stopLossPrice ? _ : null`. -/
def truthyNum (o : Option ℚ) : Option ℚ :=
  match o with
  | some x => if x = 0 then none else some x
  | none => none

/-- Instrument class, `src/src/server.ts` `getInstrumentSpecs` (lines 387-424). -/
inductive InstrumentType
  | index
  | forex
deriving DecidableEq, Repr

/-- The record returned by `getInstrumentSpecs`, `src/src/server.ts` lines 394-422. -/
structure InstrumentSpecs where
  type : InstrumentType
  pipValue : ℚ
  minDistance : ℚ
  decimals : ℕ
  minTPDistance : ℚ
  minSLDistance : ℚ
deriving DecidableEq, Repr

/-- `src/src/server.ts` line 391. -/
def forexPairs : List String :=
  ["EURUSD", "GBPUSD", "USDJPY", "AUDUSD", "USDCAD", "NZDUSD", "EURGBP", "EURJPY", "GBPJPY"]

/-- `src/src/server.ts` line 392. -/
def indices : List String :=
  ["US100", "US30", "NAS100", "SPX500", "GER40", "UK100", "JPN225", "US500", "TECH100"]

/-- Character-list comparison: does the second list start with the first. -/
def charsStartWith : List Char → List Char → Bool
  | [], _ => true
  | _ :: _, [] => false
  | a :: as, b :: bs => a == b && charsStartWith as bs

/-- Character-list containment at any position. -/
def charsContain (sub : List Char) : List Char → Bool
  | [] => sub.isEmpty
  | c :: rest => charsStartWith sub (c :: rest) || charsContain sub rest

/-- Substring test used to model JavaScript `cleanSymbol.includes("JPY")`. -/
def includesJPY (s : String) : Bool := charsContain "JPY".toList s.toList

/-- `getInstrumentSpecs`, `src/src/server.ts` lines 387-424.  The argument is
the symbol after the exchange-prefix strip and upper-casing of line 389. -/
def getInstrumentSpecs (cleanSymbol : String) : InstrumentSpecs :=
  if indices.contains cleanSymbol then
    { type := .index, pipValue := 1, minDistance := 20, decimals := 1,
      minTPDistance := 20, minSLDistance := 20 }
  else if forexPairs.contains cleanSymbol then
    let isJPYPair := includesJPY cleanSymbol
    { type := .forex
      pipValue := if isJPYPair then 1/100 else 1/10000
      minDistance := if isJPYPair then 1/10 else 1/1000
      decimals := if isJPYPair then 3 else 5
      minTPDistance := 10, minSLDistance := 10 }
  else
    { type := .forex, pipValue := 1/10000, minDistance := 1/1000, decimals := 5,
      minTPDistance := 10, minSLDistance := 10 }

/-- `side === "BUY" || side === "B"`, `src/src/server.ts` lines 433 and 470. -/
def isBuy (side : String) : Bool := side == "BUY" || side == "B"

/-- Result of `calculatePriceLevels`, `src/src/server.ts` line 460. -/
structure PriceLevels where
  takeProfitPrice : ℚ
  stopLossPrice : Option ℚ
deriving DecidableEq, Repr

/-- `calculatePriceLevels`, `src/src/server.ts` lines 426-461.  The final
`toFixed`/`Math.round` formatting is `roundToDecimals`; the source guards the
stop-loss rounding behind truthiness of the price, which only skips rounding
the value `0` (a fixed point of rounding), so the model rounds any present
stop-loss price. -/
def calculatePriceLevels (side : String) (entryPrice takeProfitPips : ℚ)
    (stopLossPips : Option ℚ) (specs : InstrumentSpecs) : PriceLevels :=
  let isB := isBuy side
  let takeProfitPrice :=
    if isB then entryPrice + takeProfitPips * specs.pipValue
    else entryPrice - takeProfitPips * specs.pipValue
  let stopLossPrice : Option ℚ :=
    (truthyNum stopLossPips).map fun sl =>
      if isB then entryPrice - sl * specs.pipValue else entryPrice + sl * specs.pipValue
  let d : ℕ := match specs.type with
    | .index => 1
    | .forex => specs.decimals
  { takeProfitPrice := roundToDecimals d takeProfitPrice
    stopLossPrice := stopLossPrice.map (roundToDecimals d) }

/-- The specific validation failures of `validatePriceLevels`,
`src/src/server.ts` lines 479-507 (the source reports them as message strings;
the model names each message). -/
inductive PriceLevelError
  | tpBelowMinimum
  | slBelowMinimum
  | buyTpNotAboveEntry
  | buySlNotBelowEntry
  | sellTpNotBelowEntry
  | sellSlNotAboveEntry
deriving DecidableEq, Repr

/-- Result shape `{ valid: boolean; error?: string }` of `validatePriceLevels`. -/
inductive PriceValidation
  | valid
  | invalid (error : PriceLevelError)
deriving DecidableEq, Repr

/-- `validatePriceLevels`, `src/src/server.ts` lines 463-511. -/
def validatePriceLevels (side : String) (entryPrice takeProfitPrice : ℚ)
    (stopLossPrice : Option ℚ) (specs : InstrumentSpecs) : PriceValidation :=
  let isB := isBuy side
  let tpDistance := |takeProfitPrice - entryPrice| / specs.pipValue
  let slDistance : Option ℚ :=
    (truthyNum stopLossPrice).map fun sl => |sl - entryPrice| / specs.pipValue
  let minRequired : ℚ := match specs.type with
    | .index => 20
    | .forex => 10
  if tpDistance < minRequired then .invalid .tpBelowMinimum
  else if (slDistance.map fun d => decide (d < minRequired)).getD false then
    .invalid .slBelowMinimum
  else if isB then
    if takeProfitPrice ≤ entryPrice then .invalid .buyTpNotAboveEntry
    else if ((truthyNum stopLossPrice).map fun sl => decide (entryPrice ≤ sl)).getD false then
      .invalid .buySlNotBelowEntry
    else .valid
  else
    if entryPrice ≤ takeProfitPrice then .invalid .sellTpNotBelowEntry
    else if ((truthyNum stopLossPrice).map fun sl => decide (sl ≤ entryPrice)).getD false then
      .invalid .sellSlNotAboveEntry
    else .valid

/-- The instrument table entry picked for EURUSD. -/
lemma getInstrumentSpecs_eurusd :
    getInstrumentSpecs "EURUSD" =
      { type := .forex, pipValue := 1/10000, minDistance := 1/1000, decimals := 5,
        minTPDistance := 10, minSLDistance := 10 } := by
  rw [getInstrumentSpecs]
  rw [show indices.contains "EURUSD" = false by decide,
    show forexPairs.contains "EURUSD" = true by decide,
    show includesJPY "EURUSD" = false by decide]
  simp

/-- The computed buy price levels for EURUSD at entry 1.10000 with a 5-pip and
a 50-pip requested take-profit distance. -/
lemma eurusd_buy_levels :
    calculatePriceLevels "B" (11/10) 5 none (getInstrumentSpecs "EURUSD")
        = { takeProfitPrice := 11005/10000, stopLossPrice := none }
    ∧ calculatePriceLevels "B" (11/10) 50 none (getInstrumentSpecs "EURUSD")
        = { takeProfitPrice := 1105/1000, stopLossPrice := none } := by
  rw [getInstrumentSpecs_eurusd]
  constructor <;>
    · rw [calculatePriceLevels]
      norm_num [isBuy, truthyNum, roundToDecimals]

/-- Validation verdict for the two computed EURUSD buy target prices: the
5-pip target 1.10050 is below the 10-pip minimum distance, the 50-pip target
1.10500 passes. -/
lemma eurusd_validate_levels :
    validatePriceLevels "B" (11/10) (11005/10000) none (getInstrumentSpecs "EURUSD")
        = .invalid .tpBelowMinimum
    ∧ validatePriceLevels "B" (11/10) (1105/1000) none (getInstrumentSpecs "EURUSD")
        = .valid := by
  rw [getInstrumentSpecs_eurusd]
  constructor <;>
    · rw [validatePriceLevels]
      norm_num [isBuy, truthyNum]
      intro h
      rw [abs_of_nonneg (by norm_num)] at h
      norm_num at h

/-- Claim C6: for a buy on EURUSD (pip value 0.0001, minimum distance 10 pips)
with entry price 1.10000, a requested take-profit distance of 5 pips is
rejected as below the minimum, and a distance of 50 pips is accepted with
computed target price exactly 1.10500. -/
theorem eurusd_buy_tp_example :
    (validatePriceLevels "B" (11/10)
        (calculatePriceLevels "B" (11/10) 5 none (getInstrumentSpecs "EURUSD")).takeProfitPrice
        (calculatePriceLevels "B" (11/10) 5 none (getInstrumentSpecs "EURUSD")).stopLossPrice
        (getInstrumentSpecs "EURUSD") = .invalid .tpBelowMinimum)
    ∧ (validatePriceLevels "B" (11/10)
        (calculatePriceLevels "B" (11/10) 50 none (getInstrumentSpecs "EURUSD")).takeProfitPrice
        (calculatePriceLevels "B" (11/10) 50 none (getInstrumentSpecs "EURUSD")).stopLossPrice
        (getInstrumentSpecs "EURUSD") = .valid)
    ∧ (calculatePriceLevels "B" (11/10) 50 none
        (getInstrumentSpecs "EURUSD")).takeProfitPrice = 1105/1000 := by
  rw [eurusd_buy_levels.1, eurusd_buy_levels.2]
  exact ⟨eurusd_validate_levels.1, eurusd_validate_levels.2, rfl⟩

/-! ### Market data: `WebSocketManager`, `src/unnamed/part_005` -/

/-- A cached quote, the entries of `connection.quotes` (part_005 line 18). -/
structure Quote where
  bid : ℚ
  ask : ℚ
  timestamp : ℤ
deriving DecidableEq, Repr

/-- `MarketData` (part_005 lines 5-11); the `symbol` field is omitted since a
single fixed symbol is modelled. -/
structure MarketData where
  bid : ℚ
  ask : ℚ
  timestamp : ℤ
  isStale : Bool
deriving DecidableEq, Repr

/-- `PRICE_STALE_THRESHOLD` (part_005 line 36), milliseconds. -/
def PRICE_STALE_THRESHOLD : ℤ := 10000

/-- `isQuoteStale` (part_005 lines 467-469), with `Date.now()` passed
explicitly as `now`. -/
def isQuoteStale (now timestamp : ℤ) : Bool :=
  decide (PRICE_STALE_THRESHOLD < now - timestamp)

/-- The nondeterministic input of one attempt of `connectForOrder` (part_005
lines 54-132): `existing` is the quote already cached on the healthy or newly
created connection, `awaited` is the quote delivered by `waitForQuote` before
its timeout (`none` models a connection failure or a quote-wait timeout, both
of which make the attempt throw), and `now` is the value of `Date.now()` at
the attempt's staleness checks. -/
structure OrderAttemptEnv where
  now : ℤ
  existing : Option Quote
  awaited : Option Quote
deriving DecidableEq, Repr

/-- The `waitForQuote` half of an attempt (part_005 lines 389-435 together
with the double-check of line 98): the awaited quote is rejected when stale,
so the attempt fails rather than return it. -/
def connectForOrderAwait (e : OrderAttemptEnv) : Option MarketData :=
  match e.awaited with
  | none => none
  | some q =>
    if isQuoteStale e.now q.timestamp then none
    else some { bid := q.bid, ask := q.ask, timestamp := q.timestamp, isStale := false }

/-- One attempt of `connectForOrder` (part_005 lines 54-113): an existing
fresh quote is returned at once (lines 81-92), otherwise the attempt waits for
a quote and re-checks its freshness (lines 95-112). -/
def connectForOrderAttempt (e : OrderAttemptEnv) : Option MarketData :=
  match e.existing with
  | some q =>
    if isQuoteStale e.now q.timestamp then connectForOrderAwait e
    else some { bid := q.bid, ask := q.ask, timestamp := q.timestamp, isStale := false }
  | none => connectForOrderAwait e

/-- `connectForOrder` (part_005 lines 51-139): the successive attempts consume
the environments of the list (of length `MAX_ORDER_RETRIES = 3` at the call
sites); the first successful attempt's market data is returned together with
the environment that produced it, and `none` models the final throw of line
138. -/
def connectForOrder : List OrderAttemptEnv → Option (OrderAttemptEnv × MarketData)
  | [] => none
  | e :: rest =>
    match connectForOrderAttempt e with
    | some md => some (e, md)
    | none => connectForOrder rest

/-- `isMarketDataValid` (part_005 lines 522-550). -/
def isMarketDataValid (md : MarketData) : Bool :=
  if md.bid ≤ 0 ∨ md.ask ≤ 0 then false
  else if md.ask ≤ md.bid then false
  else if md.timestamp ≤ 0 then false
  else
    let spread := md.ask - md.bid
    let midPrice := (md.bid + md.ask) / 2
    let spreadPercentage := spread / midPrice * 100
    if 5 < spreadPercentage then false
    else true

/-- `forceReconnectForSymbol` (part_005 lines 474-489): the stale connection
is dropped and `connectForOrder` runs on a fresh connection, modelled by its
own list of attempt environments.  Its result is returned to the caller
unchanged. -/
def forceReconnectForSymbol (reconnectRun : List OrderAttemptEnv) :
    Option (OrderAttemptEnv × MarketData) :=
  connectForOrder reconnectRun

/-- The nondeterministic input of `getMarketDataWithRetry`: the attempt
environments of the first `connectForOrder` run, the value of `Date.now()` at
the staleness re-check of line 506, and the attempt environments of the
`forceReconnectForSymbol` run. -/
structure MarketFetchEnv where
  firstRun : List OrderAttemptEnv
  recheckNow : ℤ
  reconnectRun : List OrderAttemptEnv
deriving DecidableEq, Repr

/-- `getMarketDataWithRetry` (part_005 lines 494-517): the first
`connectForOrder` result is checked for validity and freshness; on either
failure the result of the forced reconnection is returned — without any
re-validation. -/
def getMarketDataWithRetry (fe : MarketFetchEnv) : Option MarketData :=
  match connectForOrder fe.firstRun with
  | none => none
  | some (_, md) =>
    if isMarketDataValid md = false then
      (forceReconnectForSymbol fe.reconnectRun).map Prod.snd
    else if md.isStale || isQuoteStale fe.recheckNow md.timestamp then
      (forceReconnectForSymbol fe.reconnectRun).map Prod.snd
    else some md

/-- The awaited half of an attempt only yields fresh, non-stale market data. -/
lemma connectForOrderAwait_fresh (e : OrderAttemptEnv) (md : MarketData)
    (h : connectForOrderAwait e = some md) :
    e.now - md.timestamp ≤ PRICE_STALE_THRESHOLD ∧ md.isStale = false := by
  unfold connectForOrderAwait at h
  split at h
  · exact absurd h (by simp)
  · split at h
    · exact absurd h (by simp)
    · next hs =>
      cases h
      refine ⟨?_, rfl⟩
      simp only [isQuoteStale, PRICE_STALE_THRESHOLD, decide_eq_true_eq] at hs ⊢
      omega

/-- Any market data produced by a single successful attempt is fresh relative
to that attempt's clock and carries `isStale = false`. -/
lemma connectForOrderAttempt_fresh (e : OrderAttemptEnv) (md : MarketData)
    (h : connectForOrderAttempt e = some md) :
    e.now - md.timestamp ≤ PRICE_STALE_THRESHOLD ∧ md.isStale = false := by
  unfold connectForOrderAttempt at h
  split at h
  · split at h
    · exact connectForOrderAwait_fresh e md h
    · next hs =>
      cases h
      refine ⟨?_, rfl⟩
      simp only [isQuoteStale, PRICE_STALE_THRESHOLD, decide_eq_true_eq] at hs ⊢
      omega
  · exact connectForOrderAwait_fresh e md h

/-- Any market data returned by `connectForOrder` comes from a successful
attempt on one of the supplied environments. -/
lemma connectForOrder_mem (envs : List OrderAttemptEnv) (e : OrderAttemptEnv)
    (md : MarketData) (h : connectForOrder envs = some (e, md)) :
    e ∈ envs ∧ connectForOrderAttempt e = some md := by
  induction envs with
  | nil => exact absurd h (by simp [connectForOrder])
  | cons a rest ih =>
    unfold connectForOrder at h
    split at h
    · next md' ha =>
      obtain ⟨he, hmd⟩ : a = e ∧ md' = md := by
        simpa using h
      subst he; subst hmd
      exact ⟨List.mem_cons_self a rest, ha⟩
    · obtain ⟨hmem, hatt⟩ := ih h
      exact ⟨List.mem_cons_of_mem a hmem, hatt⟩

/-- Claim C3: the fresh-quote operation never returns a quote older than the
10-second freshness threshold.  First part: every execution of
`connectForOrder` that returns market data returns a quote whose timestamp is
within the threshold of the clock of the attempt that produced it, and flags
it not stale.  Second part: environments in which every available quote
exceeds the threshold yield a failure, not a quote. -/
theorem connectForOrder_freshness :
    (∀ envs e md, connectForOrder envs = some (e, md) →
      e.now - md.timestamp ≤ PRICE_STALE_THRESHOLD ∧ md.isStale = false)
    ∧ (∀ envs, (∀ e ∈ envs,
        (∀ q, e.existing = some q → isQuoteStale e.now q.timestamp = true)
        ∧ (∀ q, e.awaited = some q → isQuoteStale e.now q.timestamp = true)) →
      connectForOrder envs = none)
    ∧ (∀ fe md, getMarketDataWithRetry fe = some md →
      md.isStale = false
      ∧ ∃ e, e.now - md.timestamp ≤ PRICE_STALE_THRESHOLD
        ∧ (connectForOrder fe.firstRun = some (e, md)
          ∨ connectForOrder fe.reconnectRun = some (e, md))) := by
  have fromReconnect : ∀ fe (md : MarketData),
      (forceReconnectForSymbol (MarketFetchEnv.reconnectRun fe)).map Prod.snd = some md →
      md.isStale = false
      ∧ ∃ e, e.now - md.timestamp ≤ PRICE_STALE_THRESHOLD
        ∧ (connectForOrder fe.firstRun = some (e, md)
          ∨ connectForOrder fe.reconnectRun = some (e, md)) := by
    intro fe md hr
    rcases h2 : connectForOrder fe.reconnectRun with _ | p2
    · rw [show forceReconnectForSymbol fe.reconnectRun = none from h2] at hr
      exact absurd hr (by simp)
    · obtain ⟨e2, md2⟩ := p2
      rw [show forceReconnectForSymbol fe.reconnectRun = some (e2, md2) from h2] at hr
      have hmd : md2 = md := by simpa using hr
      subst hmd
      have hf := connectForOrderAttempt_fresh e2 md2
        (connectForOrder_mem fe.reconnectRun e2 md2 h2).2
      exact ⟨hf.2, e2, hf.1, Or.inr rfl⟩
  refine ⟨?_, ?_, ?_⟩
  · intro envs e md h
    exact connectForOrderAttempt_fresh e md (connectForOrder_mem envs e md h).2
  · intro envs hall
    induction envs with
    | nil => rfl
    | cons a rest ih =>
      have ha := hall a (List.mem_cons_self a rest)
      have hawait : connectForOrderAwait a = none := by
        unfold connectForOrderAwait
        split
        · rfl
        · next q hq => rw [if_pos (ha.2 q hq)]
      have hattempt : connectForOrderAttempt a = none := by
        unfold connectForOrderAttempt
        split
        · next q hq => rw [if_pos (ha.1 q hq)]; exact hawait
        · exact hawait
      unfold connectForOrder
      rw [hattempt]
      exact ih fun e he => hall e (List.mem_cons_of_mem a he)
  · intro fe md h
    unfold getMarketDataWithRetry at h
    split at h
    · exact absurd h (by simp)
    · next e1 md1 h1 =>
      split at h
      · exact fromReconnect fe md h
      · split at h
        · exact fromReconnect fe md h
        · have hmd : md1 = md := by simpa using h
          subst hmd
          have hf := connectForOrderAttempt_fresh e1 md1
            (connectForOrder_mem fe.firstRun e1 md1 h1).2
          exact ⟨hf.2, e1, hf.1, Or.inl h1⟩

/-- Witness for C3 at a concrete input: an environment with an existing quote
5 seconds old yields exactly that quote, and a run whose only quotes are 20
seconds old fails. -/
theorem connectForOrder_freshness_witness :
    ((⟨10000, some ⟨1, 2, 5000⟩, none⟩ : OrderAttemptEnv).now
        - (⟨1, 2, 5000, false⟩ : MarketData).timestamp ≤ PRICE_STALE_THRESHOLD
      ∧ (⟨1, 2, 5000, false⟩ : MarketData).isStale = false)
    ∧ connectForOrder [⟨30000, some ⟨1, 2, 5000⟩, some ⟨1, 2, 6000⟩⟩] = none := by
  constructor
  · exact connectForOrder_freshness.1 [⟨10000, some ⟨1, 2, 5000⟩, none⟩] _ _ (by decide)
  · exact connectForOrder_freshness.2.1 [⟨30000, some ⟨1, 2, 5000⟩, some ⟨1, 2, 6000⟩⟩]
      (by decide)

/-- Counterexample to claim C9: when the first `connectForOrder` result fails
the validity check, `getMarketDataWithRetry` returns the forced-reconnection
result without re-validating it, so a reconnection quote with ask below bid is
returned even though `isMarketDataValid` rejects it. -/
theorem getMarketDataWithRetry_invalid_counterexample :
    getMarketDataWithRetry
        ⟨[⟨1000, some ⟨1, 2, 1000⟩, none⟩], 1000, [⟨1000, some ⟨2, 1, 1000⟩, none⟩]⟩
      = some ⟨2, 1, 1000, false⟩
    ∧ isMarketDataValid ⟨2, 1, 1000, false⟩ = false := by
  have h1 : isMarketDataValid ⟨1, 2, 1000, false⟩ = false := by
    norm_num [isMarketDataValid]
  refine ⟨?_, by norm_num [isMarketDataValid]⟩
  simp [getMarketDataWithRetry, connectForOrder, connectForOrderAttempt,
    connectForOrderAwait, forceReconnectForSymbol, isQuoteStale,
    PRICE_STALE_THRESHOLD, h1]

/-- Claim C9 (amended): every quote returned by `getMarketDataWithRetry` is
non-stale, and either satisfies the validity predicate or was obtained through
the forced-reconnection path, whose result is not re-validated. -/
theorem getMarketDataWithRetry_valid_or_reconnect :
    ∀ fe md, getMarketDataWithRetry fe = some md →
      md.isStale = false
      ∧ (isMarketDataValid md = true
        ∨ ∃ e, connectForOrder fe.reconnectRun = some (e, md)) := by
  have reconn : ∀ (run : List OrderAttemptEnv) (md : MarketData),
      (forceReconnectForSymbol run).map Prod.snd = some md →
      md.isStale = false ∧ ∃ e, connectForOrder run = some (e, md) := by
    intro run md hr
    rcases h2 : connectForOrder run with _ | p2
    · rw [show forceReconnectForSymbol run = none from h2] at hr
      exact absurd hr (by simp)
    · obtain ⟨e2, md2⟩ := p2
      rw [show forceReconnectForSymbol run = some (e2, md2) from h2] at hr
      have hmd : md2 = md := by simpa using hr
      subst hmd
      exact ⟨(connectForOrderAttempt_fresh e2 md2
        (connectForOrder_mem run e2 md2 h2).2).2, e2, rfl⟩
  intro fe md h
  unfold getMarketDataWithRetry at h
  split at h
  · exact absurd h (by simp)
  · next e1 md1 h1 =>
    split at h
    · obtain ⟨hst, he⟩ := reconn fe.reconnectRun md h
      exact ⟨hst, Or.inr he⟩
    · next hv =>
      split at h
      · obtain ⟨hst, he⟩ := reconn fe.reconnectRun md h
        exact ⟨hst, Or.inr he⟩
      · have hmd : md1 = md := by simpa using h
        subst hmd
        exact ⟨(connectForOrderAttempt_fresh e1 md1
            (connectForOrder_mem fe.firstRun e1 md1 h1).2).2,
          Or.inl (by simpa using hv)⟩

/-- Witness for the amended C9 at a concrete input: a valid fresh quote is
returned by the direct path and satisfies the validity predicate. -/
theorem getMarketDataWithRetry_valid_or_reconnect_witness :
    (⟨1, 1001/1000, 1000, false⟩ : MarketData).isStale = false
    ∧ (isMarketDataValid ⟨1, 1001/1000, 1000, false⟩ = true
      ∨ ∃ e, connectForOrder
          (MarketFetchEnv.reconnectRun ⟨[⟨1000, some ⟨1, 1001/1000, 1000⟩, none⟩], 1000, []⟩)
          = some (e, (⟨1, 1001/1000, 1000, false⟩ : MarketData))) := by
  refine getMarketDataWithRetry_valid_or_reconnect
    ⟨[⟨1000, some ⟨1, 1001/1000, 1000⟩, none⟩], 1000, []⟩ _ ?_
  have hv : isMarketDataValid ⟨1, 1001/1000, 1000, false⟩ = true := by
    norm_num [isMarketDataValid]
  simp [getMarketDataWithRetry, connectForOrder, connectForOrderAttempt,
    connectForOrderAwait, isQuoteStale, PRICE_STALE_THRESHOLD, hv]

/-! ### The execution orchestrator retry loop: `placeTradeWithRetry`,
`src/src/server.ts` lines 286-385 -/

/-- The nondeterministic input of one attempt of the `placeTradeWithRetry`
loop body (server.ts lines 303-380): the outcome of the
`getMarketDataWithRetry` call (`none` models a throw) and whether the broker
`placeTrade` call resolves. -/
structure TradeAttemptEnv where
  marketData : Option MarketData
  placeOk : Bool
deriving DecidableEq, Repr

/-- What one iteration of the loop body does: which throw it ends in (lines
309, 358, 374) or the successful return of line 373.  A broker call happens
exactly in the last two cases. -/
inductive AttemptOutcome
  | noMarketData
  | staleMarket
  | invalidLevels (error : PriceLevelError)
  | brokerError (tp : ℚ) (sl : Option ℚ)
  | placed (tp : ℚ) (sl : Option ℚ)
deriving DecidableEq, Repr

/-- The outcomes on which the loop body returns (server.ts line 373). -/
def attemptSucceeds : AttemptOutcome → Bool
  | .placed _ _ => true
  | _ => false

/-- The outcomes whose control flow reached the broker `placeTrade` call
(server.ts line 362). -/
def isBrokerCall : AttemptOutcome → Bool
  | .placed _ _ => true
  | .brokerError _ _ => true
  | _ => false

/-- The per-signal arguments of `placeTradeWithRetry` that the loop body
reads (server.ts lines 287-300). -/
structure TradeParams where
  side : String
  takeProfitPips : ℚ
  stopLossPips : Option ℚ
  specs : InstrumentSpecs
deriving DecidableEq, Repr

/-- One iteration of the `placeTradeWithRetry` loop body (server.ts lines
304-373): fetch market data, reject stale data, compute the entry price (ask
for a buy, bid for a sell, line 313), compute and validate the price levels,
then place the trade. -/
def runAttempt (p : TradeParams) (env : TradeAttemptEnv) : AttemptOutcome :=
  match env.marketData with
  | none => .noMarketData
  | some md =>
    if md.isStale then .staleMarket
    else
      let entryPrice := if isBuy p.side then md.ask else md.bid
      let levels := calculatePriceLevels p.side entryPrice p.takeProfitPips
        p.stopLossPips p.specs
      match validatePriceLevels p.side entryPrice levels.takeProfitPrice
          levels.stopLossPrice p.specs with
      | .invalid e => .invalidLevels e
      | .valid =>
        if env.placeOk then .placed levels.takeProfitPrice levels.stopLossPrice
        else .brokerError levels.takeProfitPrice levels.stopLossPrice

/-- Final result of `placeTradeWithRetry`: the return of line 373 or the
rethrow of the last error at line 384. -/
inductive RetryResult
  | success (outcome : AttemptOutcome)
  | failure (lastError : AttemptOutcome)
deriving DecidableEq, Repr

/-- Observable history of one `placeTradeWithRetry` run: the outcome of each
attempt made, the backoff delays waited between attempts (line 377), and the
final result. -/
structure RetryTrace where
  outcomes : List AttemptOutcome
  delays : List ℕ
  result : RetryResult
deriving DecidableEq, Repr

/-- The loop of server.ts lines 303-381 from attempt number `attempt` on;
`fuel` is the number of remaining iterations (`maxRetries - attempt + 1` at
every call).  On failure with `attempt < maxRetries` the loop waits
`attempt * 2000` ms and continues; the error of the last attempt is rethrown
once the cap is exhausted (line 384). -/
def retryFrom (p : TradeParams) (envs : ℕ → TradeAttemptEnv) (maxRetries : ℕ) :
    ℕ → ℕ → RetryTrace
  | _, 0 => ⟨[], [], .failure .noMarketData⟩
  | attempt, fuel + 1 =>
    if attemptSucceeds (runAttempt p (envs attempt)) then
      ⟨[runAttempt p (envs attempt)], [], .success (runAttempt p (envs attempt))⟩
    else if attempt < maxRetries then
      ⟨runAttempt p (envs attempt) :: (retryFrom p envs maxRetries (attempt + 1) fuel).outcomes,
        attempt * 2000 :: (retryFrom p envs maxRetries (attempt + 1) fuel).delays,
        (retryFrom p envs maxRetries (attempt + 1) fuel).result⟩
    else ⟨[runAttempt p (envs attempt)], [], .failure (runAttempt p (envs attempt))⟩

/-- `placeTradeWithRetry` (server.ts lines 286-385) as a function of the
per-attempt environments; all call sites use the default `maxRetries = 3`. -/
def placeTradeWithRetry (p : TradeParams) (envs : ℕ → TradeAttemptEnv)
    (maxRetries : ℕ) : RetryTrace :=
  retryFrom p envs maxRetries 1 maxRetries

/-- The linear backoff schedule `attempt * 2000` starting at attempt `a`. -/
def backoffFrom (a : ℕ) : ℕ → List ℕ
  | 0 => []
  | n + 1 => a * 2000 :: backoffFrom (a + 1) n

/-- Last element of a cons list with a nonempty tail. -/
lemma getLastQ_cons {α : Type} (x : α) (l : List α) (h : l ≠ []) :
    (x :: l).getLast? = l.getLast? := by
  cases l with
  | nil => exact absurd rfl h
  | cons y ys => rfl

/-- Every run makes at least one attempt when fuel is positive. -/
lemma retryFrom_length_pos (p : TradeParams) (envs : ℕ → TradeAttemptEnv)
    (m a fuel : ℕ) (h : 0 < fuel) :
    0 < (retryFrom p envs m a fuel).outcomes.length := by
  match fuel with
  | 0 => exact absurd h (by omega)
  | fuel + 1 =>
    rw [retryFrom]
    split
    · simp
    · split
      · simp
      · simp

/-- The number of attempts is bounded by the fuel. -/
lemma retryFrom_length_le (p : TradeParams) (envs : ℕ → TradeAttemptEnv)
    (m : ℕ) : ∀ fuel a, (retryFrom p envs m a fuel).outcomes.length ≤ fuel := by
  intro fuel
  induction fuel with
  | zero => intro a; simp [retryFrom]
  | succ n ih =>
    intro a
    rw [retryFrom]
    split
    · simp
    · split
      · simpa using ih (a + 1)
      · simp

/-- The delays recorded by a run starting at attempt `a` with the remaining
fuel follow the linear backoff schedule `a * 2000, (a+1) * 2000, ...`. -/
lemma retryFrom_delays (p : TradeParams) (envs : ℕ → TradeAttemptEnv)
    (m : ℕ) : ∀ fuel a, a + fuel = m + 1 →
      (retryFrom p envs m a fuel).delays
        = backoffFrom a ((retryFrom p envs m a fuel).outcomes.length - 1) := by
  intro fuel
  induction fuel with
  | zero => intro a hsum; simp [retryFrom, backoffFrom]
  | succ n ih =>
    intro a hsum
    by_cases hsucc : attemptSucceeds (runAttempt p (envs a)) = true
    · rw [retryFrom, if_pos hsucc]
      simp [backoffFrom]
    · by_cases hlt : a < m
      · have hn : 0 < n := by omega
        rw [retryFrom, if_neg hsucc, if_pos hlt]
        have hpos := retryFrom_length_pos p envs m (a + 1) n hn
        simp only [List.length_cons]
        rw [show (retryFrom p envs m (a + 1) n).outcomes.length + 1 - 1
            = ((retryFrom p envs m (a + 1) n).outcomes.length - 1) + 1 by omega]
        rw [backoffFrom]
        rw [ih (a + 1) (by omega)]
      · rw [retryFrom, if_neg hsucc, if_neg hlt]
        simp [backoffFrom]

/-- A failure result means every available attempt was made, and the surfaced
error is the outcome of the last attempt. -/
lemma retryFrom_failure (p : TradeParams) (envs : ℕ → TradeAttemptEnv)
    (m : ℕ) : ∀ fuel a o, a + fuel = m + 1 → 0 < fuel →
      (retryFrom p envs m a fuel).result = .failure o →
      (retryFrom p envs m a fuel).outcomes.length = fuel
      ∧ (retryFrom p envs m a fuel).outcomes.getLast? = some o := by
  intro fuel
  induction fuel with
  | zero => intro a o hsum hpos; exact absurd hpos (by omega)
  | succ n ih =>
    intro a o hsum hpos h
    by_cases hsucc : attemptSucceeds (runAttempt p (envs a)) = true
    · rw [retryFrom, if_pos hsucc] at h
      simp at h
    · by_cases hlt : a < m
      · have hn : 0 < n := by omega
        rw [retryFrom, if_neg hsucc, if_pos hlt] at h
        simp only at h
        obtain ⟨hlen, hlast⟩ := ih (a + 1) o (by omega) hn h
        rw [retryFrom, if_neg hsucc, if_pos hlt]
        have hne : (retryFrom p envs m (a + 1) n).outcomes ≠ [] := by
          intro hnil
          rw [hnil] at hlen
          simp at hlen
          omega
        constructor
        · simp [hlen]
        · simpa [getLastQ_cons _ _ hne] using hlast
      · have hn : n = 0 := by omega
        subst hn
        rw [retryFrom, if_neg hsucc, if_neg hlt] at h
        simp only at h
        have ho : o = runAttempt p (envs a) := by
          cases h
          rfl
        subst ho
        rw [retryFrom, if_neg hsucc, if_neg hlt]
        exact ⟨rfl, rfl⟩

/-- Parameters of the concrete C7 scenario: a buy of EURUSD with a 50-pip
take-profit distance. -/
def exampleParams : TradeParams := ⟨"B", 50, none, getInstrumentSpecs "EURUSD"⟩

/-- A fresh EURUSD quote with the broker accepting the order. -/
def goodEnv : TradeAttemptEnv := ⟨some ⟨10999/10000, 11/10, 1000, false⟩, true⟩

/-- Transient failure injected on the first two attempts, success available on
the third. -/
def failTwiceEnvs : ℕ → TradeAttemptEnv :=
  fun n => if n ≤ 2 then ⟨none, true⟩ else goodEnv

/-- A good attempt for the 50-pip buy places the order at target 1.10500. -/
lemma runAttempt_good :
    runAttempt exampleParams goodEnv = .placed (1105/1000) none := by
  rw [runAttempt]
  simp only [exampleParams, goodEnv]
  rw [show isBuy "B" = true from rfl]
  simp only [if_true, Bool.false_eq_true, if_false]
  rw [eurusd_buy_levels.2]
  simp only []
  rw [eurusd_validate_levels.2]

/-- Parameters of the C5 counterexample: a buy of EURUSD with a 5-pip
take-profit distance, which always fails the price-level validation. -/
def badParams : TradeParams := ⟨"B", 5, none, getInstrumentSpecs "EURUSD"⟩

/-- An environment in which `getMarketDataWithRetry` always throws. -/
def allFailEnvs : ℕ → TradeAttemptEnv := fun _ => ⟨none, true⟩

/-- An attempt for the 5-pip buy always ends in the validation rejection. -/
lemma runAttempt_bad :
    runAttempt badParams goodEnv = .invalidLevels .tpBelowMinimum := by
  rw [runAttempt]
  simp only [badParams, goodEnv]
  rw [show isBuy "B" = true from rfl]
  simp only [if_true, Bool.false_eq_true, if_false]
  rw [eurusd_buy_levels.1]
  simp only []
  rw [eurusd_validate_levels.1]

/-- Claim C7: the orchestrator retries the quote/compute/validate/place
sequence up to a cap of 3 attempts with a linear backoff of
`attempt * 2000` ms between attempts, surfaces the last error once the cap is
exhausted, and in the concrete scenario of a transient failure on the first
two attempts with success on the third makes exactly three attempts, exactly
one broker call, and succeeds. -/
theorem placeTradeWithRetry_retry_policy :
    (∀ p envs, (placeTradeWithRetry p envs 3).outcomes.length ≤ 3)
    ∧ (∀ p envs, (placeTradeWithRetry p envs 3).delays
        = backoffFrom 1 ((placeTradeWithRetry p envs 3).outcomes.length - 1))
    ∧ (∀ p envs o, (placeTradeWithRetry p envs 3).result = .failure o →
        (placeTradeWithRetry p envs 3).outcomes.length = 3
        ∧ (placeTradeWithRetry p envs 3).outcomes.getLast? = some o)
    ∧ ((placeTradeWithRetry exampleParams failTwiceEnvs 3).outcomes
        = [.noMarketData, .noMarketData, .placed (1105/1000) none]
      ∧ (placeTradeWithRetry exampleParams failTwiceEnvs 3).delays = [2000, 4000]
      ∧ (placeTradeWithRetry exampleParams failTwiceEnvs 3).result
          = .success (.placed (1105/1000) none)
      ∧ (placeTradeWithRetry exampleParams failTwiceEnvs 3).outcomes.countP
          isBrokerCall = 1) := by
  refine ⟨?_, ?_, ?_, ?_⟩
  · intro p envs
    exact retryFrom_length_le p envs 3 3 1
  · intro p envs
    exact retryFrom_delays p envs 3 3 1 (by omega)
  · intro p envs o h
    exact retryFrom_failure p envs 3 3 1 o (by omega) (by omega) h
  · have h1 : runAttempt exampleParams (failTwiceEnvs 1) = .noMarketData := by
      rw [show failTwiceEnvs 1 = ⟨none, true⟩ from rfl]
      rfl
    have h2 : runAttempt exampleParams (failTwiceEnvs 2) = .noMarketData := by
      rw [show failTwiceEnvs 2 = ⟨none, true⟩ from rfl]
      rfl
    have h3 : runAttempt exampleParams (failTwiceEnvs 3) = .placed (1105/1000) none := by
      rw [show failTwiceEnvs 3 = goodEnv from rfl]
      exact runAttempt_good
    refine ⟨?_, ?_, ?_, ?_⟩ <;>
      simp [placeTradeWithRetry, retryFrom, h1, h2, h3, attemptSucceeds, isBrokerCall,
        List.countP_cons, List.countP_nil]

/-- Witness for C7 at a concrete input: when every attempt fails to obtain
market data, the run makes all three attempts and surfaces the last error. -/
theorem placeTradeWithRetry_retry_policy_witness :
    (placeTradeWithRetry exampleParams allFailEnvs 3).outcomes.length = 3
    ∧ (placeTradeWithRetry exampleParams allFailEnvs 3).outcomes.getLast?
        = some .noMarketData :=
  placeTradeWithRetry_retry_policy.2.2.1 exampleParams allFailEnvs .noMarketData
    (by simp [placeTradeWithRetry, retryFrom, allFailEnvs, runAttempt, attemptSucceeds])

/-- Counterexample to claim C5: with unchanged inputs whose computed price
levels always fail validation (EURUSD buy, 5-pip take-profit), the
orchestrator does not stop after the validation rejection of the first
attempt: it runs the sequence three times. -/
theorem validation_failure_retried_counterexample :
    (placeTradeWithRetry badParams (fun _ => goodEnv) 3).outcomes
      = [.invalidLevels .tpBelowMinimum, .invalidLevels .tpBelowMinimum,
        .invalidLevels .tpBelowMinimum]
    ∧ 1 < (placeTradeWithRetry badParams (fun _ => goodEnv) 3).outcomes.length := by
  constructor <;>
    simp [placeTradeWithRetry, retryFrom, runAttempt_bad, attemptSucceeds]

/-- Claim C5 (amended): a computed-price-level validation failure is treated
like any other attempt failure: the orchestrator retries the full
quote/compute/validate/place sequence up to the 3-attempt cap, never reaches
the broker call, and finally surfaces the validation error. -/
theorem validation_failure_retried :
    ∀ p envs e, (∀ n, runAttempt p (envs n) = .invalidLevels e) →
      (placeTradeWithRetry p envs 3).outcomes
        = [.invalidLevels e, .invalidLevels e, .invalidLevels e]
      ∧ (placeTradeWithRetry p envs 3).result = .failure (.invalidLevels e)
      ∧ (placeTradeWithRetry p envs 3).outcomes.countP isBrokerCall = 0 := by
  intro p envs e h
  refine ⟨?_, ?_, ?_⟩ <;>
    simp [placeTradeWithRetry, retryFrom, h, attemptSucceeds, isBrokerCall,
      List.countP_cons, List.countP_nil]

/-- Witness for the amended C5 at a concrete input. -/
theorem validation_failure_retried_witness :
    (placeTradeWithRetry badParams (fun _ => goodEnv) 3).outcomes
      = [.invalidLevels .tpBelowMinimum, .invalidLevels .tpBelowMinimum,
        .invalidLevels .tpBelowMinimum]
    ∧ (placeTradeWithRetry badParams (fun _ => goodEnv) 3).result
        = .failure (.invalidLevels .tpBelowMinimum)
    ∧ (placeTradeWithRetry badParams (fun _ => goodEnv) 3).outcomes.countP
        isBrokerCall = 0 :=
  validation_failure_retried badParams (fun _ => goodEnv) .tpBelowMinimum
    (fun _ => runAttempt_bad)

/-! ### Trading sessions: `src/unnamed/part_006` lines 714-739 (live gate)
and `src/src/utils.ts` lines 8-38 (statistics) -/

/-- The four trading sessions (the sources use the strings `asia_session`,
`london_session`, `new_york_session`, `limbo_session`). -/
inductive Session
  | asia
  | london
  | new_york
  | limbo
deriving DecidableEq, Repr

/-- Hour-of-day of an epoch-millisecond timestamp, as JavaScript
`new Date(t).getUTCHours()`: floor division by 3600000, then modulo 24. -/
def utcHourOfMillis (t : ℤ) : ℤ := (Int.fdiv t 3600000) % 24

/-- `getCurrentTradingSession` (part_006 lines 714-739) as a function of
`new Date().getUTCHours()`. -/
def getCurrentTradingSession (utcHour : ℤ) : Option Session :=
  if 6 ≤ utcHour ∧ utcHour < 14 then some .london
  else if 12 ≤ utcHour ∧ utcHour < 20 then some .new_york
  else if 2 ≤ utcHour ∧ utcHour < 8 then some .limbo
  else if 22 ≤ utcHour ∨ utcHour < 6 then some .asia
  else none

/-- `getTradingSessionForTimestamp` (utils.ts lines 8-38): the timestamp is
shifted by the fixed UTC-5 Eastern-Time offset, its hour taken with
`getUTCHours()`, and the hour mapped to a session; a `0` timestamp is falsy
in JavaScript and yields null (line 9). -/
def getTradingSessionForTimestamp (t : ℤ) : Option Session :=
  if t = 0 then none
  else
    let hours := utcHourOfMillis (t - 5 * 3600000)
    if 17 ≤ hours ∨ hours < 1 then some .asia
    else if 1 ≤ hours ∧ hours < 6 then some .london
    else if 6 ≤ hours ∧ hours < 14 then some .new_york
    else if 14 ≤ hours ∧ hours < 17 then some .limbo
    else none

/-- The live gate's session resolution applied to the timestamp of the
current wall-clock instant. -/
def gateSessionForTimestamp (t : ℤ) : Option Session :=
  getCurrentTradingSession (utcHourOfMillis t)

/-- Counterexample to claim C8: the live gate assigns no session at all to
20:00 UTC (so the gate's windows do not cover every wall-clock time), and at
12:00 UTC the gate says london while the statistics code says new_york (so
the two definitions disagree). -/
theorem session_windows_counterexample :
    gateSessionForTimestamp (20 * 3600000) = none
    ∧ gateSessionForTimestamp (12 * 3600000) = some .london
    ∧ getTradingSessionForTimestamp (12 * 3600000) = some .new_york
    ∧ gateSessionForTimestamp (12 * 3600000)
        ≠ getTradingSessionForTimestamp (12 * 3600000) := by
  refine ⟨by decide, by decide, by decide, by decide⟩

/-- Claim C8 (amended): the statistics code's four session windows are
non-overlapping and total — every nonzero timestamp is assigned exactly one
session; the live gate's resolution assigns at most one session but leaves
UTC hours 20 and 21 with none, and the two definitions disagree on part of
the day. -/
theorem session_windows_amended :
    (∀ t : ℤ, t ≠ 0 → (getTradingSessionForTimestamp t).isSome = true)
    ∧ (∀ t : ℤ, utcHourOfMillis t = 20 ∨ utcHourOfMillis t = 21 →
        gateSessionForTimestamp t = none)
    ∧ gateSessionForTimestamp (12 * 3600000)
        ≠ getTradingSessionForTimestamp (12 * 3600000) := by
  refine ⟨?_, ?_, by decide⟩
  · intro t ht
    rw [getTradingSessionForTimestamp, if_neg ht]
    have h0 : 0 ≤ utcHourOfMillis (t - 5 * 3600000) := by
      have := Int.emod_nonneg (Int.fdiv (t - 5 * 3600000) 3600000)
        (show (24 : ℤ) ≠ 0 by norm_num)
      simpa [utcHourOfMillis] using this
    have h24 : utcHourOfMillis (t - 5 * 3600000) < 24 := by
      have := Int.emod_lt_of_pos (Int.fdiv (t - 5 * 3600000) 3600000)
        (show (0 : ℤ) < 24 by norm_num)
      simpa [utcHourOfMillis] using this
    simp only []
    split_ifs with h1 h2 h3 h4
    · rfl
    · rfl
    · rfl
    · rfl
    · exfalso
      omega
  · intro t ht
    rw [gateSessionForTimestamp, getCurrentTradingSession]
    rcases ht with h | h <;>
      · rw [h]
        norm_num

/-- Witness for the amended C8 at concrete inputs: the statistics definition
assigns a session to the timestamp 123, and the gate assigns no session at
21:00 UTC. -/
theorem session_windows_amended_witness :
    (getTradingSessionForTimestamp 123).isSome = true
    ∧ gateSessionForTimestamp (21 * 3600000) = none :=
  ⟨session_windows_amended.1 123 (by norm_num),
    session_windows_amended.2.1 (21 * 3600000) (Or.inr (by decide))⟩

/-! ### Alert-id bookkeeping: the duplicate-check keys -/

/-- The alert id stored with an executed order: `src/src/server.ts` line 1652
writes the concatenation `alertId + "_" + login` into the order row's
`alert_id` column. -/
def storedHistoricalAlertId (alertId login : String) : String :=
  alertId ++ "_" ++ login

/-- A row of the `sfx_historical_orders` table restricted to the two columns
the duplicate query reads. -/
structure HistOrderRow where
  alert_id : String
  login : String
deriving DecidableEq, Repr

/-- The row written by the execution path for signal `(alertId, login)`
(server.ts lines 1622-1667 via `upsertOrder`, part_006 lines 412-487). -/
def execHistRow (alertId login : String) : HistOrderRow :=
  ⟨storedHistoricalAlertId alertId login, login⟩

/-- The per-row condition of the fallback query of `orderExistsWithAlertId`
(part_006 lines 951-953): `WHERE alert_id = ? AND login = ?` with the raw
alert id. -/
def histRowMatches (alertId login : String) (r : HistOrderRow) : Bool :=
  r.alert_id == alertId && r.login == login

/-- `orderExistsWithAlertId` (part_006 lines 936-961) over an explicit store:
membership in the `processed_webhook_ids` table keyed by
`(alert_id, account_number)`, with the historical-orders fallback. -/
def orderExistsWithAlertId (processed : List (String × String))
    (hist : List HistOrderRow) (alertId login : String) : Bool :=
  processed.contains (alertId, login) || hist.any (histRowMatches alertId login)

/-- Claim C10: the historical-orders fallback can never match an order
recorded by the execution path for the same `(alertId, login)` signal: the
stored key `alertId + "_" + login` differs from the queried raw `alertId` for
every non-empty login, so on a store whose historical rows all come from the
execution path for this signal, duplicate detection reduces to the
`processed_webhook_ids` table alone. -/
theorem historical_fallback_never_matches :
    ∀ alertId login, login ≠ "" →
      storedHistoricalAlertId alertId login ≠ alertId
      ∧ histRowMatches alertId login (execHistRow alertId login) = false
      ∧ ∀ (processed : List (String × String)) (hist : List HistOrderRow),
          (∀ r ∈ hist, r = execHistRow alertId login) →
          orderExistsWithAlertId processed hist alertId login
            = processed.contains (alertId, login) := by
  intro alertId login hlogin
  have hne : storedHistoricalAlertId alertId login ≠ alertId := by
    intro heq
    have hlen := congrArg String.length heq
    rw [storedHistoricalAlertId] at hlen
    rw [String.length_append, String.length_append] at hlen
    have hpos : login.length ≠ 0 := by
      intro h0
      apply hlogin
      cases login with
      | mk data =>
        cases data with
        | nil => rfl
        | cons c cs => simp [String.length] at h0
    omega
  have hmatch : histRowMatches alertId login (execHistRow alertId login) = false := by
    rw [histRowMatches, execHistRow]
    simp only [Bool.and_eq_false_iff]
    left
    simpa using hne
  refine ⟨hne, hmatch, ?_⟩
  intro processed hist hall
  rw [orderExistsWithAlertId]
  have hany : hist.any (histRowMatches alertId login) = false := by
    rw [List.any_eq_false]
    intro r hr
    rw [hall r hr, hmatch]
    simp
  rw [hany, Bool.or_false]

/-- Witness for C10 at a concrete input. -/
theorem historical_fallback_never_matches_witness :
    storedHistoricalAlertId "A1" "7" ≠ "A1"
    ∧ histRowMatches "A1" "7" (execHistRow "A1" "7") = false
    ∧ orderExistsWithAlertId [("A1", "7")] [execHistRow "A1" "7"] "A1" "7"
        = [("A1", "7")].contains ("A1", "7") := by
  obtain ⟨h1, h2, h3⟩ := historical_fallback_never_matches "A1" "7" (by decide)
  exact ⟨h1, h2, h3 [("A1", "7")] [execHistRow "A1" "7"] (by simp)⟩

/-! ### The webhook intake pipeline as a transition system

The claims about duplicate suppression concern the interleaving of many
replays of the same signal with the queue worker.  The model fixes one
`(alertId, login)` key (the replayed signal, with the alert id present) and
tracks exactly the state the source consults about that key, including the
wall clock: `checkForDuplicate`'s in-queue checks only fire while a queued
job for the key is younger than the 30-second duplicate window
(`(now - job.timestamp) < this.duplicateWindow`, webhookLogger.ts lines 242
and 253).  The events are the source's steps between `await` boundaries;
everything inside one event is synchronous JavaScript and therefore atomic
on the event loop:

* `advance d`: the wall clock (`Date.now()`) advances by `d` milliseconds.
* `storeCheck r`: replay `r`'s `await orderExistsWithAlertId` (server.ts line
  1299).  By the key-mismatch argument of `historical_fallback_never_matches`,
  rows written by the execution path never satisfy the historical-orders
  fallback for the raw queried key, so the check reduces to membership in
  `processed_webhook_ids` (the `db` flag).
* `queueCheck r`: the synchronous block of server.ts lines 1300-1339 in the
  continuation: `webhookQueue.checkForDuplicate` (the in-memory processed-ids
  check, then the in-queue checks restricted to jobs younger than the
  30-second window, webhookLogger.ts lines 226-259) followed — with no
  intervening `await` — by the synchronous `queue.push` inside
  `webhookQueue.add`, which stamps the job with the current time
  (webhookLogger.ts lines 191-202).
* `dequeue`: the worker's `queue.shift()` plus the synchronous prefix of
  `processJob`, which adds the alert key to the in-memory `processedIds` set
  BEFORE the job is processed (webhookLogger.ts lines 315-360); the job
  enters its critical section.
* `critRecheck`: the `orderExistsWithAlertId` re-check inside the critical
  section (server.ts line 1516): the job proceeds only while the durable
  record is absent; when it is present the job throws and can only leave
  through the failure events.
* `brokerCall`: `placeTradeWithRetry` reaches the broker `placeTrade` call
  (server.ts line 362); repeatable within one processing pass, as the retry
  loop is.
* `succeed`: `processWebhookData` completes after a placed order: the order
  row is upserted and `storeProcessedId` writes the key to the durable table
  and the in-memory set (server.ts lines 1667-1675, webhookLogger.ts lines
  261-283).
* `failRequeue`: the job failed with retries remaining and is re-pushed with
  its ORIGINAL timestamp — `job.timestamp` is set once at `add`
  (webhookLogger.ts lines 329-337).
* `failTerminal`: the retry cap is exhausted and the job is dropped
  (webhookLogger.ts lines 338-341).

The worker is free to dequeue late (jobs of other keys and accounts share
the single FIFO queue ahead of ours).  Retention sweeps
(`cleanupProcessedIds`) and process restarts are outside the model, as they
are outside the claims. -/

/-- Phase of one replay (one HTTP delivery) of the signal. -/
inductive ReqPhase
  | notArrived
  | checkedOk
  | doneDupStore
  | doneDupQueue
  | doneEnqueued
deriving DecidableEq, Repr

/-- Stage of the job currently inside `processWebhookData`: before the
alert-id re-check, past it, or past the broker call. -/
inductive JobStage
  | started
  | checked
  | called
deriving DecidableEq, Repr

/-- Pipeline state restricted to the one replayed `(alertId, login)` key.
`queued` holds `(replay, job timestamp)` pairs in FIFO order; `acceptTime`
records the time at which each replay was accepted into the queue;
`brokerCalls` counts how often each replay's job reached the broker call. -/
structure PipelineState where
  now : ℕ
  db : Bool
  mem : Bool
  queued : List (ℕ × ℕ)
  inflight : Option (ℕ × ℕ × JobStage)
  reqs : ℕ → ReqPhase
  acceptTime : ℕ → Option ℕ
  brokerCalls : ℕ → ℕ

/-- The observable steps of the pipeline (see the section comment). -/
inductive PipelineEv
  | advance (d : ℕ)
  | storeCheck (r : ℕ)
  | queueCheck (r : ℕ)
  | dequeue
  | critRecheck
  | brokerCall
  | succeed
  | failRequeue
  | failTerminal
deriving DecidableEq, Repr

/-- `duplicateWindow` (webhookLogger.ts line 168), milliseconds. -/
def DUPLICATE_WINDOW : ℕ := 30000

/-- The in-queue half of `checkForDuplicate` (webhookLogger.ts lines
238-256): some job for the key is queued and younger than the duplicate
window. -/
def withinWindow (now : ℕ) (queued : List (ℕ × ℕ)) : Bool :=
  queued.any fun j => now - j.2 < DUPLICATE_WINDOW

/-- Pointwise function update. -/
def upd {α : Type} (f : ℕ → α) (r : ℕ) (v : α) (i : ℕ) : α :=
  if i = r then v else f i

/-- One transition of the pipeline (no-op when the event does not apply). -/
def pipelineStep (s : PipelineState) : PipelineEv → PipelineState
  | .advance d => { s with now := s.now + d }
  | .storeCheck r =>
    if s.reqs r = .notArrived then
      if s.db then { s with reqs := upd s.reqs r .doneDupStore }
      else { s with reqs := upd s.reqs r .checkedOk }
    else s
  | .queueCheck r =>
    if s.reqs r = .checkedOk then
      if s.mem = true ∨ withinWindow s.now s.queued = true then
        { s with reqs := upd s.reqs r .doneDupQueue }
      else
        { s with queued := s.queued ++ [(r, s.now)],
                 reqs := upd s.reqs r .doneEnqueued,
                 acceptTime := upd s.acceptTime r (some s.now) }
    else s
  | .dequeue =>
    match s.queued, s.inflight with
    | (r, t) :: rest, none =>
      { s with queued := rest, inflight := some (r, t, .started), mem := true }
    | _, _ => s
  | .critRecheck =>
    match s.inflight with
    | some (r, t, .started) =>
      if s.db then s else { s with inflight := some (r, t, .checked) }
    | _ => s
  | .brokerCall =>
    match s.inflight with
    | some (r, t, .checked) =>
      { s with inflight := some (r, t, .called),
               brokerCalls := upd s.brokerCalls r (s.brokerCalls r + 1) }
    | some (r, _, .called) =>
      { s with brokerCalls := upd s.brokerCalls r (s.brokerCalls r + 1) }
    | _ => s
  | .succeed =>
    match s.inflight with
    | some (_, _, .called) => { s with inflight := none, db := true, mem := true }
    | _ => s
  | .failRequeue =>
    match s.inflight with
    | some (r, t, _) => { s with inflight := none, queued := s.queued ++ [(r, t)] }
    | none => s
  | .failTerminal =>
    match s.inflight with
    | some _ => { s with inflight := none }
    | none => s

/-- Initial state: the clock at zero, nothing processed, nothing queued, no
replay arrived. -/
def pipelineInit : PipelineState :=
  { now := 0, db := false, mem := false, queued := [], inflight := none,
    reqs := fun _ => .notArrived, acceptTime := fun _ => none,
    brokerCalls := fun _ => 0 }

/-- Run of the pipeline on a list of events. -/
def pipelineRun (es : List PipelineEv) : PipelineState :=
  es.foldl pipelineStep pipelineInit

/-- The inductive invariant of the pipeline: (1) while a job is processing
the in-memory set holds the key (the speculative marking of `processJob`);
(2)-(4) all recorded timestamps are bounded by the clock; (5) a replay is in
phase `doneEnqueued` exactly when its acceptance time is recorded; (6)
before the first dequeue each accepted replay's job is still in the queue,
bearing its acceptance time; (7) any two accepted replays are separated by
at least the duplicate window; (8) once the durable record exists, a
processing job can never be past the critical-section re-check. -/
def PipelineInv (s : PipelineState) : Prop :=
  (s.inflight.isSome = true → s.mem = true)
  ∧ (∀ p ∈ s.queued, p.2 ≤ s.now)
  ∧ (∀ r t st, s.inflight = some (r, t, st) → t ≤ s.now)
  ∧ (∀ r t, s.acceptTime r = some t → t ≤ s.now)
  ∧ (∀ r, s.reqs r = .doneEnqueued ↔ s.acceptTime r ≠ none)
  ∧ (s.mem = false → ∀ r t, s.acceptTime r = some t → (r, t) ∈ s.queued)
  ∧ (∀ r1 r2 t1 t2, r1 ≠ r2 → s.acceptTime r1 = some t1 →
      s.acceptTime r2 = some t2 →
      t1 + DUPLICATE_WINDOW ≤ t2 ∨ t2 + DUPLICATE_WINDOW ≤ t1)
  ∧ (s.db = true → ∀ r t st, s.inflight = some (r, t, st) → st = .started)

lemma pipelineInit_inv : PipelineInv pipelineInit := by
  refine ⟨?_, ?_, ?_, ?_, ?_, ?_, ?_, ?_⟩ <;> simp [pipelineInit]

/-- A transition that only rewrites one replay's phase to a non-accepted
value preserves the invariant. -/
lemma PipelineInv_reqs_upd (s : PipelineState) (hInv : PipelineInv s) (r : ℕ)
    (v : ReqPhase) (hv : v ≠ .doneEnqueued) (hold : s.reqs r ≠ .doneEnqueued) :
    PipelineInv { s with reqs := upd s.reqs r v } := by
  obtain ⟨h1, h2, h3, h4, h5, h6, h7, h8⟩ := hInv
  refine ⟨h1, h2, h3, h4, ?_, h6, h7, h8⟩
  intro i
  show upd s.reqs r v i = .doneEnqueued ↔ s.acceptTime i ≠ none
  rw [upd]
  by_cases hi : i = r
  · rw [if_pos hi, hi]
    constructor
    · intro hveq
      exact absurd hveq hv
    · intro hacc
      exact absurd ((h5 r).2 hacc) hold
  · rw [if_neg hi]
    exact h5 i

lemma pipelineStep_inv (s : PipelineState) (e : PipelineEv) (hInv : PipelineInv s) :
    PipelineInv (pipelineStep s e) := by
  cases e with
  | advance d =>
    obtain ⟨h1, h2, h3, h4, h5, h6, h7, h8⟩ := hInv
    rw [pipelineStep]
    refine ⟨h1, ?_, ?_, ?_, h5, h6, h7, h8⟩
    · intro p hp
      exact le_trans (h2 p hp) (Nat.le_add_right _ _)
    · intro r t st hrt
      exact le_trans (h3 r t st hrt) (Nat.le_add_right _ _)
    · intro r t hrt
      exact le_trans (h4 r t hrt) (Nat.le_add_right _ _)
  | storeCheck r =>
    rw [pipelineStep]
    split
    · next hphase =>
      split
      · exact PipelineInv_reqs_upd s hInv r .doneDupStore (by simp) (by rw [hphase]; simp)
      · exact PipelineInv_reqs_upd s hInv r .checkedOk (by simp) (by rw [hphase]; simp)
    · exact hInv
  | queueCheck r =>
    rw [pipelineStep]
    split
    · next hphase =>
      split
      · exact PipelineInv_reqs_upd s hInv r .doneDupQueue (by simp) (by rw [hphase]; simp)
      · next hnodup =>
        obtain ⟨h1, h2, h3, h4, h5, h6, h7, h8⟩ := hInv
        have hmemF : s.mem = false := by
          cases hsm : s.mem
          · rfl
          · exact absurd (Or.inl hsm) hnodup
        have hwinF : withinWindow s.now s.queued = false := by
          cases hw : withinWindow s.now s.queued
          · rfl
          · exact absurd (Or.inr hw) hnodup
        have hfar : ∀ p ∈ s.queued, ¬(s.now - p.2 < DUPLICATE_WINDOW) := by
          intro p hp
          rw [withinWindow, List.any_eq_false] at hwinF
          simpa using hwinF p hp
        refine ⟨h1, ?_, h3, ?_, ?_, ?_, ?_, h8⟩
        · intro p hp
          rcases List.mem_append.1 hp with hp | hp
          · exact h2 p hp
          · have hpe : p = (r, s.now) := by simpa using hp
            rw [hpe]
        · intro i t hit
          have hit' : upd s.acceptTime r (some s.now) i = some t := hit
          rw [upd] at hit'
          by_cases hi : i = r
          · rw [if_pos hi] at hit'
            have hts : s.now = t := by simpa using hit'
            exact le_of_eq hts.symm
          · rw [if_neg hi] at hit'
            exact h4 i t hit'
        · intro i
          show upd s.reqs r .doneEnqueued i = .doneEnqueued
            ↔ upd s.acceptTime r (some s.now) i ≠ none
          rw [upd, upd]
          by_cases hi : i = r
          · rw [if_pos hi, if_pos hi]
            simp
          · rw [if_neg hi, if_neg hi]
            exact h5 i
        · intro hmemF' i t hit
          have hit' : upd s.acceptTime r (some s.now) i = some t := hit
          rw [upd] at hit'
          by_cases hi : i = r
          · rw [if_pos hi] at hit'
            have ht : s.now = t := by simpa using hit'
            rw [hi, ← ht]
            exact List.mem_append_right _ (by simp)
          · rw [if_neg hi] at hit'
            exact List.mem_append_left _ (h6 hmemF i t hit')
        · intro i j ti tj hij hi hj
          have hi' : upd s.acceptTime r (some s.now) i = some ti := hi
          have hj' : upd s.acceptTime r (some s.now) j = some tj := hj
          rw [upd] at hi' hj'
          by_cases hir : i = r
          · rw [if_pos hir] at hi'
            have hti : s.now = ti := by simpa using hi'
            have hjr : ¬ j = r := fun hjr => hij (hir.trans hjr.symm)
            rw [if_neg hjr] at hj'
            have hmemj := h6 hmemF j tj hj'
            have hfarj : ¬(s.now - tj < DUPLICATE_WINDOW) := hfar (j, tj) hmemj
            have hlej := h4 j tj hj'
            right
            omega
          · rw [if_neg hir] at hi'
            by_cases hjr : j = r
            · rw [if_pos hjr] at hj'
              have htj : s.now = tj := by simpa using hj'
              have hmemi := h6 hmemF i ti hi'
              have hfari : ¬(s.now - ti < DUPLICATE_WINDOW) := hfar (i, ti) hmemi
              have hlei := h4 i ti hi'
              left
              omega
            · rw [if_neg hjr] at hj'
              exact h7 i j ti tj hij hi' hj'
    · exact hInv
  | dequeue =>
    rcases hq : s.queued with _ | ⟨⟨r, t⟩, rest⟩
    · have hstep : pipelineStep s .dequeue = s := by rw [pipelineStep, hq]
      rw [hstep]
      exact hInv
    · rcases hi : s.inflight with _ | j
      · have hstep : pipelineStep s .dequeue
            = { s with queued := rest, inflight := some (r, t, .started), mem := true } := by
          rw [pipelineStep, hq, hi]
        rw [hstep]
        obtain ⟨h1, h2, h3, h4, h5, h6, h7, h8⟩ := hInv
        have hhead : t ≤ s.now := h2 (r, t) (by rw [hq]; exact List.mem_cons_self _ _)
        refine ⟨fun _ => rfl, ?_, ?_, h4, h5, ?_, h7, ?_⟩
        · intro p hp
          exact h2 p (by rw [hq]; exact List.mem_cons_of_mem _ hp)
        · intro r' t' st' h'
          simp only [Option.some.injEq, Prod.mk.injEq] at h'
          rw [← h'.2.1]
          exact hhead
        · intro hmemF
          exact absurd hmemF (by simp)
        · intro hdb r' t' st' h'
          simp only [Option.some.injEq, Prod.mk.injEq] at h'
          exact h'.2.2.symm
      · have hstep : pipelineStep s .dequeue = s := by rw [pipelineStep, hq, hi]
        rw [hstep]
        exact hInv
  | critRecheck =>
    rcases hi : s.inflight with _ | ⟨r, t, st⟩
    · have hstep : pipelineStep s .critRecheck = s := by rw [pipelineStep, hi]
      rw [hstep]
      exact hInv
    · cases st with
      | started =>
        by_cases hdb : s.db = true
        · have hstep : pipelineStep s .critRecheck = s := by
            rw [pipelineStep, hi]
            simp [hdb]
          rw [hstep]
          exact hInv
        · have hstep : pipelineStep s .critRecheck
              = { s with inflight := some (r, t, .checked) } := by
            rw [pipelineStep, hi]
            simp [hdb]
          rw [hstep]
          obtain ⟨h1, h2, h3, h4, h5, h6, h7, h8⟩ := hInv
          refine ⟨?_, h2, ?_, h4, h5, h6, h7, ?_⟩
          · intro _
            exact h1 (by rw [hi]; rfl)
          · intro r' t' st' h'
            simp only [Option.some.injEq, Prod.mk.injEq] at h'
            rw [← h'.2.1]
            exact h3 r t .started hi
          · intro hdb'
            exact absurd hdb' hdb
      | checked =>
        have hstep : pipelineStep s .critRecheck = s := by rw [pipelineStep, hi]
        rw [hstep]
        exact hInv
      | called =>
        have hstep : pipelineStep s .critRecheck = s := by rw [pipelineStep, hi]
        rw [hstep]
        exact hInv
  | brokerCall =>
    rcases hi : s.inflight with _ | ⟨r, t, st⟩
    · have hstep : pipelineStep s .brokerCall = s := by rw [pipelineStep, hi]
      rw [hstep]
      exact hInv
    · obtain ⟨h1, h2, h3, h4, h5, h6, h7, h8⟩ := hInv
      cases st with
      | started =>
        have hstep : pipelineStep s .brokerCall = s := by rw [pipelineStep, hi]
        rw [hstep]
        exact ⟨h1, h2, h3, h4, h5, h6, h7, h8⟩
      | checked =>
        have hstep : pipelineStep s .brokerCall
            = { s with inflight := some (r, t, .called),
                       brokerCalls := upd s.brokerCalls r (s.brokerCalls r + 1) } := by
          rw [pipelineStep, hi]
        rw [hstep]
        refine ⟨?_, h2, ?_, h4, h5, h6, h7, ?_⟩
        · intro _
          exact h1 (by rw [hi]; rfl)
        · intro r' t' st' h'
          simp only [Option.some.injEq, Prod.mk.injEq] at h'
          rw [← h'.2.1]
          exact h3 r t .checked hi
        · intro hdb r' t' st' h'
          exact absurd (h8 hdb r t .checked hi) (by simp)
      | called =>
        have hstep : pipelineStep s .brokerCall
            = { s with brokerCalls := upd s.brokerCalls r (s.brokerCalls r + 1) } := by
          rw [pipelineStep, hi]
        rw [hstep]
        refine ⟨h1, h2, h3, h4, h5, h6, h7, ?_⟩
        intro hdb r' t' st' h'
        exact absurd (h8 hdb r t .called hi) (by simp)
  | succeed =>
    rcases hi : s.inflight with _ | ⟨r, t, st⟩
    · have hstep : pipelineStep s .succeed = s := by rw [pipelineStep, hi]
      rw [hstep]
      exact hInv
    · obtain ⟨h1, h2, h3, h4, h5, h6, h7, h8⟩ := hInv
      cases st with
      | started =>
        have hstep : pipelineStep s .succeed = s := by rw [pipelineStep, hi]
        rw [hstep]
        exact ⟨h1, h2, h3, h4, h5, h6, h7, h8⟩
      | checked =>
        have hstep : pipelineStep s .succeed = s := by rw [pipelineStep, hi]
        rw [hstep]
        exact ⟨h1, h2, h3, h4, h5, h6, h7, h8⟩
      | called =>
        have hstep : pipelineStep s .succeed
            = { s with inflight := none, db := true, mem := true } := by
          rw [pipelineStep, hi]
        rw [hstep]
        refine ⟨fun _ => rfl, h2, ?_, h4, h5, ?_, h7, ?_⟩
        · intro r' t' st' h'
          exact absurd h' (by simp)
        · intro hmemF
          exact absurd hmemF (by simp)
        · intro _ r' t' st' h'
          exact absurd h' (by simp)
  | failRequeue =>
    rcases hi : s.inflight with _ | ⟨r, t, st⟩
    · have hstep : pipelineStep s .failRequeue = s := by rw [pipelineStep, hi]
      rw [hstep]
      exact hInv
    · have hstep : pipelineStep s .failRequeue
          = { s with inflight := none, queued := s.queued ++ [(r, t)] } := by
        rw [pipelineStep, hi]
      rw [hstep]
      obtain ⟨h1, h2, h3, h4, h5, h6, h7, h8⟩ := hInv
      have hmemT : s.mem = true := h1 (by rw [hi]; rfl)
      refine ⟨?_, ?_, ?_, h4, h5, ?_, h7, ?_⟩
      · intro h'
        exact absurd h' (by simp)
      · intro p hp
        rcases List.mem_append.1 hp with hp | hp
        · exact h2 p hp
        · have hpe : p = (r, t) := by simpa using hp
          rw [hpe]
          exact h3 r t st hi
      · intro r' t' st' h'
        exact absurd h' (by simp)
      · intro hmemF
        rw [hmemF] at hmemT
        exact absurd hmemT (by simp)
      · intro _ r' t' st' h'
        exact absurd h' (by simp)
  | failTerminal =>
    rcases hi : s.inflight with _ | j
    · have hstep : pipelineStep s .failTerminal = s := by rw [pipelineStep, hi]
      rw [hstep]
      exact hInv
    · have hstep : pipelineStep s .failTerminal = { s with inflight := none } := by
        rw [pipelineStep, hi]
      rw [hstep]
      obtain ⟨h1, h2, h3, h4, h5, h6, h7, h8⟩ := hInv
      refine ⟨?_, h2, ?_, h4, h5, h6, h7, ?_⟩
      · intro h'
        exact absurd h' (by simp)
      · intro r' t' st' h'
        exact absurd h' (by simp)
      · intro _ r' t' st' h'
        exact absurd h' (by simp)

/-- No event ever removes the in-memory marking. -/
lemma pipelineStep_mem_mono (s : PipelineState) (e : PipelineEv) (h : s.mem = true) :
    (pipelineStep s e).mem = true := by
  cases e <;>
    · rw [pipelineStep]
      repeat' split
      all_goals first | exact h | rfl

/-- No event ever removes the durable record. -/
lemma pipelineStep_db_mono (s : PipelineState) (e : PipelineEv) (h : s.db = true) :
    (pipelineStep s e).db = true := by
  cases e <;>
    · rw [pipelineStep]
      repeat' split
      all_goals first | exact h | rfl

/-- Only the `succeed` event writes the durable record. -/
lemma pipelineStep_db_of_ne (s : PipelineState) (e : PipelineEv)
    (he : e ≠ .succeed) (h : s.db = false) : (pipelineStep s e).db = false := by
  cases e with
  | succeed => exact absurd rfl he
  | advance d => rw [pipelineStep]; exact h
  | storeCheck r =>
    rw [pipelineStep]
    repeat' split
    all_goals exact h
  | queueCheck r =>
    rw [pipelineStep]
    repeat' split
    all_goals exact h
  | dequeue =>
    rw [pipelineStep]
    repeat' split
    all_goals exact h
  | critRecheck =>
    rw [pipelineStep]
    repeat' split
    all_goals exact h
  | brokerCall =>
    rw [pipelineStep]
    repeat' split
    all_goals exact h
  | failRequeue =>
    rw [pipelineStep]
    repeat' split
    all_goals exact h
  | failTerminal =>
    rw [pipelineStep]
    repeat' split
    all_goals exact h

/-- Once the in-memory set holds the key, no event can newly accept a
replay. -/
lemma pipelineStep_enq_frozen (s : PipelineState) (e : PipelineEv) (r : ℕ)
    (hmem : s.mem = true) (h : (pipelineStep s e).reqs r = .doneEnqueued) :
    s.reqs r = .doneEnqueued := by
  cases e with
  | advance d => exact h
  | storeCheck r' =>
    revert h
    rw [pipelineStep]
    split
    · split <;>
        · intro h
          have h' : upd s.reqs r' _ r = .doneEnqueued := h
          rw [upd] at h'
          by_cases hr : r = r'
          · rw [if_pos hr] at h'
            exact absurd h' (by simp)
          · rw [if_neg hr] at h'
            exact h'
    · exact fun h => h
  | queueCheck r' =>
    revert h
    rw [pipelineStep]
    split
    · split
      · intro h
        have h' : upd s.reqs r' .doneDupQueue r = .doneEnqueued := h
        rw [upd] at h'
        by_cases hr : r = r'
        · rw [if_pos hr] at h'
          exact absurd h' (by simp)
        · rw [if_neg hr] at h'
          exact h'
      · next hnodup =>
        exact absurd (Or.inl hmem) hnodup
    · exact fun h => h
  | dequeue =>
    revert h
    rw [pipelineStep]
    repeat' split
    all_goals exact fun h => h
  | critRecheck =>
    revert h
    rw [pipelineStep]
    repeat' split
    all_goals exact fun h => h
  | brokerCall =>
    revert h
    rw [pipelineStep]
    repeat' split
    all_goals exact fun h => h
  | succeed =>
    revert h
    rw [pipelineStep]
    repeat' split
    all_goals exact fun h => h
  | failRequeue =>
    revert h
    rw [pipelineStep]
    repeat' split
    all_goals exact fun h => h
  | failTerminal =>
    revert h
    rw [pipelineStep]
    repeat' split
    all_goals exact fun h => h

/-- Once the durable record exists, no event makes a broker call: the only
job that can be in flight is still before the re-check, which it cannot
pass. -/
lemma pipelineStep_calls_frozen (s : PipelineState) (e : PipelineEv) (r : ℕ)
    (hdb : s.db = true) (hInv : PipelineInv s) :
    (pipelineStep s e).brokerCalls r = s.brokerCalls r := by
  obtain ⟨h1, h2, h3, h4, h5, h6, h7, h8⟩ := hInv
  cases e with
  | brokerCall =>
    rcases hi : s.inflight with _ | ⟨r', t', st'⟩
    · rw [pipelineStep, hi]
    · have hst : st' = .started := h8 hdb r' t' st' hi
      subst hst
      rw [pipelineStep, hi]
  | advance d => rw [pipelineStep]
  | storeCheck r' =>
    rw [pipelineStep]
    repeat' split
    all_goals rfl
  | queueCheck r' =>
    rw [pipelineStep]
    repeat' split
    all_goals rfl
  | dequeue =>
    rw [pipelineStep]
    repeat' split
    all_goals rfl
  | critRecheck =>
    rw [pipelineStep]
    repeat' split
    all_goals rfl
  | succeed =>
    rw [pipelineStep]
    repeat' split
    all_goals rfl
  | failRequeue =>
    rw [pipelineStep]
    repeat' split
    all_goals rfl
  | failTerminal =>
    rw [pipelineStep]
    repeat' split
    all_goals rfl

/-- The invariant holds in every reachable state. -/
lemma pipelineRun_inv (es : List PipelineEv) : PipelineInv (pipelineRun es) := by
  rw [pipelineRun]
  have hfold : ∀ (l : List PipelineEv) (s : PipelineState), PipelineInv s →
      PipelineInv (l.foldl pipelineStep s) := by
    intro l
    induction l with
    | nil => intro s hs; exact hs
    | cons e rest ih =>
      intro s hs
      exact ih (pipelineStep s e) (pipelineStep_inv s e hs)
  exact hfold es pipelineInit pipelineInit_inv

/-- In a run without a `succeed` event the durable table never holds the key. -/
lemma pipelineRun_db_false (es : List PipelineEv) (h : PipelineEv.succeed ∉ es) :
    (pipelineRun es).db = false := by
  rw [pipelineRun]
  have hfold : ∀ (l : List PipelineEv) (s : PipelineState), s.db = false →
      PipelineEv.succeed ∉ l → (l.foldl pipelineStep s).db = false := by
    intro l
    induction l with
    | nil => intro s hs _; exact hs
    | cons e rest ih =>
      intro s hs hmem
      have he : e ≠ .succeed := fun he => hmem (he ▸ List.mem_cons_self e rest)
      exact ih (pipelineStep s e) (pipelineStep_db_of_ne s e he hs)
        fun hm => hmem (List.mem_cons_of_mem e hm)
  exact hfold es pipelineInit rfl h

lemma pipelineRun_append (es suffix : List PipelineEv) :
    pipelineRun (es ++ suffix) = suffix.foldl pipelineStep (pipelineRun es) := by
  rw [pipelineRun, pipelineRun, List.foldl_append]

/-- After the in-memory set holds the key, the set of accepted replays can
never grow. -/
lemma foldl_enq_frozen : ∀ (l : List PipelineEv) (s : PipelineState) (r : ℕ),
    s.mem = true → (l.foldl pipelineStep s).reqs r = .doneEnqueued →
    s.reqs r = .doneEnqueued := by
  intro l
  induction l with
  | nil => intro s r _ h'; exact h'
  | cons e rest ih =>
    intro s r hmem h'
    exact pipelineStep_enq_frozen s e r hmem
      (ih (pipelineStep s e) r (pipelineStep_mem_mono s e hmem) h')

/-- After the durable record exists, broker-call counters never change. -/
lemma foldl_calls_frozen : ∀ (l : List PipelineEv) (s : PipelineState) (r : ℕ),
    s.db = true → PipelineInv s →
    (l.foldl pipelineStep s).brokerCalls r = s.brokerCalls r := by
  intro l
  induction l with
  | nil => intro s r _ _; rfl
  | cons e rest ih =>
    intro s r hdb hInv
    rw [List.foldl_cons]
    rw [ih (pipelineStep s e) r (pipelineStep_db_mono s e hdb) (pipelineStep_inv s e hInv)]
    exact pipelineStep_calls_frozen s e r hdb hInv

/-- The run refuting claim C1: replay 0 is accepted at time 0; the worker,
busy with other keys' jobs, dequeues nothing for 30 seconds; replay 1
arrives at time 30000, passes the store check (no durable record), the
in-memory check (the key is only marked at dequeue) and the in-queue check
(the queued job is no longer within the 30-second duplicate window), and is
accepted too.  Job 0 then reaches the broker and fails terminally after
placement; job 1 passes the critical-section re-check (still no durable
record) and reaches the broker as well. -/
def cexTrace : List PipelineEv :=
  [.storeCheck 0, .queueCheck 0, .advance 30000, .storeCheck 1, .queueCheck 1,
    .dequeue, .critRecheck, .brokerCall, .failTerminal,
    .dequeue, .critRecheck, .brokerCall, .succeed]

/-- Counterexample to claim C1: two replays of the same `(alertId, login)`
are both accepted — the second is recognized by none of the three duplicate
checks — and both reach the broker order-placement call, because the second
replay arrived after the 30-second duplicate window of the still-undequeued
first job expired, and the first job failed terminally after placement,
leaving no record for the critical-section re-check to find. -/
theorem webhook_at_most_once_counterexample :
    (pipelineRun cexTrace).reqs 0 = .doneEnqueued
    ∧ (pipelineRun cexTrace).reqs 1 = .doneEnqueued
    ∧ (pipelineRun cexTrace).brokerCalls 0 = 1
    ∧ (pipelineRun cexTrace).brokerCalls 1 = 1 := by
  refine ⟨by decide, by decide, by decide, by decide⟩

/-- Claim C1 (amended): duplicate suppression is bounded by the 30-second
duplicate window and the processing markers.  (1) A replay is accepted
exactly when its acceptance time is recorded; (2) any two accepted replays
of the same `(alertId, login)` are separated by at least the 30-second
duplicate window; (3) once any job for the key has begun processing (the
speculative in-memory marking), no further replay is ever accepted; (4)
once a success is durably recorded, no job for the key ever reaches the
broker order-placement call again.  A replay arriving more than 30 seconds
after a still-undequeued job for the same key is, however, accepted as well
(`webhook_at_most_once_counterexample`). -/
theorem webhook_duplicate_defenses :
    (∀ (es : List PipelineEv) (r : ℕ),
      (pipelineRun es).reqs r = .doneEnqueued ↔ (pipelineRun es).acceptTime r ≠ none)
    ∧ (∀ (es : List PipelineEv) (r1 r2 t1 t2 : ℕ), r1 ≠ r2 →
        (pipelineRun es).acceptTime r1 = some t1 →
        (pipelineRun es).acceptTime r2 = some t2 →
        t1 + DUPLICATE_WINDOW ≤ t2 ∨ t2 + DUPLICATE_WINDOW ≤ t1)
    ∧ (∀ (es suffix : List PipelineEv) (r : ℕ), (pipelineRun es).mem = true →
        (pipelineRun (es ++ suffix)).reqs r = .doneEnqueued →
        (pipelineRun es).reqs r = .doneEnqueued)
    ∧ (∀ (es suffix : List PipelineEv) (r : ℕ), (pipelineRun es).db = true →
        (pipelineRun (es ++ suffix)).brokerCalls r = (pipelineRun es).brokerCalls r) := by
  refine ⟨?_, ?_, ?_, ?_⟩
  · intro es r
    exact (pipelineRun_inv es).2.2.2.2.1 r
  · intro es r1 r2 t1 t2 h12 h1 h2
    exact (pipelineRun_inv es).2.2.2.2.2.2.1 r1 r2 t1 t2 h12 h1 h2
  · intro es suffix r hmem h'
    rw [pipelineRun_append] at h'
    exact foldl_enq_frozen suffix (pipelineRun es) r hmem h'
  · intro es suffix r hdb
    rw [pipelineRun_append]
    exact foldl_calls_frozen suffix (pipelineRun es) r hdb (pipelineRun_inv es)

/-- Witness for the amended C1 at concrete runs: the two acceptances of the
counterexample prefix are exactly one duplicate window apart; after a
dequeue no later replay is accepted; after a recorded success the broker is
never called again. -/
theorem webhook_duplicate_defenses_witness :
    ((0 : ℕ) + DUPLICATE_WINDOW ≤ 30000 ∨ (30000 : ℕ) + DUPLICATE_WINDOW ≤ 0)
    ∧ (pipelineRun [.storeCheck 0, .queueCheck 0, .dequeue]).reqs 0 = .doneEnqueued
    ∧ (pipelineRun ([.storeCheck 0, .queueCheck 0, .dequeue, .critRecheck, .brokerCall,
          .succeed] ++ [.storeCheck 1, .queueCheck 1, .dequeue])).brokerCalls 1
        = (pipelineRun [.storeCheck 0, .queueCheck 0, .dequeue, .critRecheck, .brokerCall,
          .succeed]).brokerCalls 1 := by
  refine ⟨?_, ?_, ?_⟩
  · exact webhook_duplicate_defenses.2.1
      [.storeCheck 0, .queueCheck 0, .advance 30000, .storeCheck 1, .queueCheck 1]
      0 1 0 30000 (by decide) (by decide) (by decide)
  · exact webhook_duplicate_defenses.2.2.1 [.storeCheck 0, .queueCheck 0, .dequeue]
      [.storeCheck 1, .queueCheck 1] 0 (by decide) (by decide)
  · exact webhook_duplicate_defenses.2.2.2
      [.storeCheck 0, .queueCheck 0, .dequeue, .critRecheck, .brokerCall, .succeed]
      [.storeCheck 1, .queueCheck 1, .dequeue] 1 (by decide)

/-- Counterexample to claim C2: the concrete run in which the single
accepted replay ends in a terminal failure (cap exhausted, job dropped)
leaves the in-memory mirror of the idempotency store still holding the key —
the record was created speculatively when processing began, not at success —
so it is false that on terminal failure no idempotency record exists in any
layer. -/
theorem speculative_marking_counterexample :
    PipelineEv.succeed ∉ [PipelineEv.storeCheck 0, .queueCheck 0, .dequeue, .failTerminal]
    ∧ (pipelineRun [.storeCheck 0, .queueCheck 0, .dequeue, .failTerminal]).inflight = none
    ∧ (pipelineRun [.storeCheck 0, .queueCheck 0, .dequeue, .failTerminal]).queued = []
    ∧ (pipelineRun [.storeCheck 0, .queueCheck 0, .dequeue, .failTerminal]).db = false
    ∧ (pipelineRun [.storeCheck 0, .queueCheck 0, .dequeue, .failTerminal]).mem = true := by
  refine ⟨by decide, by decide, by decide, by decide, by decide⟩

/-- Claim C2 (amended): the durable idempotency record is created only at the
moment execution succeeds — a run without a success leaves the
`processed_webhook_ids` table without the key, so a later genuinely distinct
retry is not blocked by the durable store; the in-memory mirror, however, is
marked speculatively when the job starts processing, so it still holds the
key after a terminal failure. -/
theorem idempotency_record_layers :
    (∀ es : List PipelineEv, PipelineEv.succeed ∉ es → (pipelineRun es).db = false)
    ∧ (∀ es : List PipelineEv, (pipelineRun es).inflight.isSome = true →
        (pipelineRun es).mem = true) := by
  refine ⟨pipelineRun_db_false, ?_⟩
  intro es
  exact (pipelineRun_inv es).1

/-- Witness for the amended C2 at concrete runs. -/
theorem idempotency_record_layers_witness :
    (pipelineRun [.storeCheck 0, .queueCheck 0, .dequeue, .failTerminal]).db = false
    ∧ (pipelineRun [.storeCheck 0, .queueCheck 0, .dequeue]).mem = true := by
  refine ⟨?_, ?_⟩
  · exact idempotency_record_layers.1 [.storeCheck 0, .queueCheck 0, .dequeue, .failTerminal]
      (by decide)
  · exact idempotency_record_layers.2 [.storeCheck 0, .queueCheck 0, .dequeue] (by decide)

/-! ### Per-account mutual exclusion

`processWebhookData` (server.ts lines 1459-1685) takes the per-account mutex
from `getMutex` (lines 73-78, one stable `Mutex` instance per login kept in
the `loginMutexes` map), runs the whole critical section inside
`try { ... } finally { release() }` (lines 1466-1685), so the lock is
released on success, on rejection, and on exception alike.  The `async-mutex`
`Mutex` contract is: `acquire()` resolves only while no one holds the lock,
and `release()` frees it.  Signals for the same account are the processes of
the model; the interleaving of their acquire/grant/exit steps is arbitrary. -/

/-- Phase of one signal's processing with respect to the account lock. -/
inductive ProcPhase
  | idle
  | waiting
  | crit
  | done
deriving DecidableEq, Repr

/-- State of one account's mutex and its competing signals. -/
structure MutexState where
  lock : Option ℕ
  phase : ℕ → ProcPhase

/-- The observable lock events of `processWebhookData`: `request p` is the
call `mutex.acquire()` (line 1464), `grant p` its resolution while the lock
is free, `exitOk p` the successful end of the critical section and `exitErr p`
its end by exception — both running the `finally` release of line 1684. -/
inductive MutexEv
  | request (p : ℕ)
  | grant (p : ℕ)
  | exitOk (p : ℕ)
  | exitErr (p : ℕ)
deriving DecidableEq, Repr

/-- Pointwise update of process phases. -/
def updPhase (f : ℕ → ProcPhase) (p : ℕ) (v : ProcPhase) (i : ℕ) : ProcPhase :=
  if i = p then v else f i

/-- One transition of the lock protocol (no-op when not applicable). -/
def mutexStep (s : MutexState) : MutexEv → MutexState
  | .request p =>
    if s.phase p = .idle then { s with phase := updPhase s.phase p .waiting } else s
  | .grant p =>
    if s.phase p = .waiting ∧ s.lock = none then
      { lock := some p, phase := updPhase s.phase p .crit }
    else s
  | .exitOk p =>
    if s.phase p = .crit then { lock := none, phase := updPhase s.phase p .done }
    else s
  | .exitErr p =>
    if s.phase p = .crit then { lock := none, phase := updPhase s.phase p .done }
    else s

/-- Initially the lock is free and no signal has arrived. -/
def mutexInit : MutexState := { lock := none, phase := fun _ => .idle }

/-- Run of the lock protocol on a list of events. -/
def mutexRun (es : List MutexEv) : MutexState :=
  es.foldl mutexStep mutexInit

/-- The inductive invariant: a signal is inside its critical section exactly
when it holds the lock. -/
def MutexInv (s : MutexState) : Prop :=
  ∀ p, s.phase p = .crit ↔ s.lock = some p

lemma mutexStep_inv (s : MutexState) (e : MutexEv) (h : MutexInv s) :
    MutexInv (mutexStep s e) := by
  have exitCase : ∀ p, s.phase p = .crit →
      MutexInv { lock := none, phase := updPhase s.phase p .done } := by
    intro p hp q
    show updPhase s.phase p .done q = .crit ↔ (none : Option ℕ) = some q
    rw [updPhase]
    by_cases hq : q = p
    · simp [hq]
    · constructor
      · intro hcrit
        rw [if_neg hq] at hcrit
        have hq2 := (h q).1 hcrit
        rw [(h p).1 hp] at hq2
        exact absurd (by simpa using hq2.symm : q = p) hq
      · intro hnone
        exact absurd hnone (by simp)
  cases e with
  | request p =>
    rw [mutexStep]
    split
    · next hidle =>
      intro q
      show updPhase s.phase p .waiting q = .crit ↔ s.lock = some q
      rw [updPhase]
      by_cases hq : q = p
      · rw [if_pos hq]
        subst hq
        rw [← h q, hidle]
        simp
      · rw [if_neg hq]
        exact h q
    · exact h
  | grant p =>
    rw [mutexStep]
    split
    · next hcond =>
      intro q
      show updPhase s.phase p .crit q = .crit ↔ some p = some q
      rw [updPhase]
      by_cases hq : q = p
      · simp [hq]
      · rw [if_neg hq]
        rw [h q, hcond.2]
        constructor
        · intro hfalse
          exact absurd hfalse (by simp)
        · intro hpq
          exact absurd (show q = p by simpa using hpq.symm) hq
    · exact h
  | exitOk p =>
    rw [mutexStep]
    split
    · next hp => exact exitCase p hp
    · exact h
  | exitErr p =>
    rw [mutexStep]
    split
    · next hp => exact exitCase p hp
    · exact h

/-- The invariant holds in every reachable state. -/
lemma mutexRun_inv (es : List MutexEv) : MutexInv (mutexRun es) := by
  rw [mutexRun]
  have : ∀ (l : List MutexEv) (s : MutexState), MutexInv s →
      MutexInv (l.foldl mutexStep s) := by
    intro l
    induction l with
    | nil => intro s hs; exact hs
    | cons e rest ih => intro s hs; exact ih (mutexStep s e) (mutexStep_inv s e hs)
  exact this es mutexInit fun p => by simp [mutexInit]

/-- Claim C4: in every interleaving of signals for the same account, no two
signals are inside the per-account critical section at the same time — the
second never begins its critical section before the first's lock is released —
and a signal that has finished (by success, rejection, or exception) no
longer holds the lock: both exit paths run the `finally` release. -/
theorem account_mutual_exclusion :
    ∀ es : List MutexEv,
      (∀ p q, (mutexRun es).phase p = .crit → (mutexRun es).phase q = .crit → p = q)
      ∧ (∀ p, (mutexRun es).phase p = .done → (mutexRun es).lock ≠ some p) := by
  intro es
  have hinv := mutexRun_inv es
  refine ⟨?_, ?_⟩
  · intro p q hp hq
    have h1 := (hinv p).1 hp
    have h2 := (hinv q).1 hq
    rw [h1] at h2
    simpa using h2
  · intro p hdone hlock
    have := (hinv p).2 hlock
    rw [hdone] at this
    exact absurd this (by simp)

/-- Witness for C4 at a concrete interleaving: signal 0 acquires, fails, and
releases through the `finally`; signal 1 then acquires; only signal 1 is in
its critical section and signal 0 holds no lock. -/
theorem account_mutual_exclusion_witness :
    (1 : ℕ) = 1
    ∧ (mutexRun [.request 0, .grant 0, .request 1, .exitErr 0, .grant 1]).lock
        ≠ some 0 := by
  refine ⟨?_, ?_⟩
  · exact (account_mutual_exclusion
      [.request 0, .grant 0, .request 1, .exitErr 0, .grant 1]).1 1 1
      (by decide) (by decide)
  · exact (account_mutual_exclusion
      [.request 0, .grant 0, .request 1, .exitErr 0, .grant 1]).2 0 (by decide)

end WingTradeBot
